import Mathlib

/-!
Verification of the IA-webgen concierge workflow against its code.

The frontend definitions below are translated from
`src/frontend/src/ConciergeModal.js` and `src/frontend/public/sw.js`.
The backend workflow engine (`/app/backend/server.py`, class
`ConciergeAutomation`, and its request store) is not part of the shipped
sources; the definitions in the `Backend` section are modelled from the
spec (sections 3, 4.1, 4.2, 6), as marked on each definition.
-/

namespace IAWebgen

/-- Client-selected urgency of a concierge request
(ConciergeModal.js `formData.urgency`, values "normal" / "urgent"). -/
inductive Urgency where
  | normal
  | urgent
deriving DecidableEq, Repr

/-- Total price displayed by ConciergeModal.js line 268:
`formData.urgency === 'urgent' ? '59€' : '49€'` (euros). -/
def totalPriceEuros : Urgency → Nat
  | Urgency.urgent => 59
  | Urgency.normal => 49

/-- Final window of the "Chronologie Automatique" shown by ConciergeModal.js
line 341: `90 min-{formData.urgency === 'urgent' ? '24h' : '4h'}` (hours). -/
def chronologieFinalWindowHours : Urgency → Nat
  | Urgency.urgent => 24
  | Urgency.normal => 4

/-- Guard on the confirm button of ConciergeModal.js line 282:
`disabled={!formData.email || !formData.domain || loading}`.
A JavaScript string is falsy exactly when it is empty. -/
def confirmDisabled (email domain : String) (loading : Bool) : Bool :=
  email.isEmpty || domain.isEmpty || loading

end IAWebgen

namespace IAWebgen.SW

/-- A fetch request as seen by the service worker (sw.js): HTTP method and
URL pathname. -/
structure ApiRequest where
  method : String
  pathname : String
deriving DecidableEq, Repr

/-- An HTTP response: status code and body. -/
structure SWResponse where
  status : Nat
  body : String
deriving DecidableEq, Repr

/-- The dynamic cache of sw.js, keyed by request. -/
abbrev Cache := List (ApiRequest × SWResponse)

/-- `cache.match(request)` on the model cache. -/
def cacheMatch (c : Cache) (r : ApiRequest) : Option SWResponse :=
  (c.find? (fun p => p.1 == r)).map Prod.snd

/-- `cache.put(request, response)` on the model cache. -/
def cachePut (c : Cache) (r : ApiRequest) (resp : SWResponse) : Cache :=
  (r, resp) :: c.filter (fun p => p.1 != r)

/-- Helper for `strContains`: does `pat` occur as a contiguous run of `l`? -/
def containsAux (pat : List Char) : List Char → Bool
  | [] => pat.isPrefixOf ([] : List Char)
  | c :: rest => pat.isPrefixOf (c :: rest) || containsAux pat rest

/-- Substring test used to model the unanchored regex patterns of sw.js. -/
def strContains (s pat : String) : Bool :=
  containsAux pat.toList s.toList

/-- Does `s` start with `pat`? (models JavaScript `String.startsWith`). -/
def strStartsWith (s pat : String) : Bool :=
  pat.toList.isPrefixOf s.toList

/-- `API_CACHE_PATTERNS` of sw.js lines 21-25: the pathname matches one of
the regexes `/\/api\/$/`, `/\/api\/create-referral/`, `/\/api\/preview\//`. -/
def apiCachePatternMatches (pathname : String) : Bool :=
  pathname.endsWith "/api/" ||
    strContains pathname "/api/create-referral" ||
    strContains pathname "/api/preview/"

/-- Outcome of one `fetch(request)` call to the network. -/
inductive NetResult where
  | ok (resp : SWResponse)
  | failure
deriving DecidableEq, Repr

/-- Result of handling a fetch event: a response together with the cache
state afterwards, or a rejected promise (the cache state unchanged). -/
inductive SWOutcome where
  | resp (r : SWResponse) (c : Cache)
  | errorPropagated (c : Cache)
deriving DecidableEq, Repr

/-- The generic 503 JSON error response built by sw.js lines 154-163. -/
def offlineJsonResponse : SWResponse :=
  { status := 503,
    body := "\x7b\"error\":\"Application is offline\",\"message\":\"Please check your internet connection and try again.\"\x7d" }

/-- `handleApiRequest` of sw.js lines 115-165.  `net` is the outcome of
fetching this request from the network (the background-refresh fetch of the
cached-hit branch is modelled with the same outcome).  For cacheable GETs:
a cached hit is returned and the cache refreshed in the background when the
network answers 200; a miss fetches from the network, caching 200 responses,
and a network failure in that branch propagates (no catch).  Every other
request is fetched from the network with no cache interaction; a network
failure there yields the generic 503 JSON response. -/
def handleApiRequest (req : ApiRequest) (cache : Cache) (net : NetResult) :
    SWOutcome :=
  if req.method = "GET" ∧ apiCachePatternMatches req.pathname = true then
    match cacheMatch cache req with
    | some cached =>
      match net with
      | NetResult.ok r =>
        if r.status = 200 then SWOutcome.resp cached (cachePut cache req r)
        else SWOutcome.resp cached cache
      | NetResult.failure => SWOutcome.resp cached cache
    | none =>
      match net with
      | NetResult.ok r =>
        if r.status = 200 then SWOutcome.resp r (cachePut cache req r)
        else SWOutcome.resp r cache
      | NetResult.failure => SWOutcome.errorPropagated cache
  else
    match net with
    | NetResult.ok r => SWOutcome.resp r cache
    | NetResult.failure => SWOutcome.resp offlineJsonResponse cache

/-- Routing of the fetch event listener, sw.js lines 66-75: API paths go to
`handleApiRequest`, everything else to the static-file strategy. -/
inductive FetchRoute where
  | api
  | staticFile
deriving DecidableEq, Repr

/-- The fetch listener's dispatch on `requestUrl.pathname.startsWith('/api/')`. -/
def fetchRoute (req : ApiRequest) : FetchRoute :=
  if strStartsWith req.pathname "/api/" then FetchRoute.api else FetchRoute.staticFile

end IAWebgen.SW

namespace IAWebgen.Backend

open IAWebgen

/-- Modelled from the spec: the workflow stages of section 4.1 of the design
(the backend `server.py` / `ConciergeAutomation` implementing them is not in
the shipped sources). -/
inductive Stage where
  | created
  | domainChecking
  | domainUnavailable
  | awaitingPayment
  | provisioning
  | configuringHosting
  | configuringDns
  | delivered
  | failed
deriving DecidableEq, Repr, Fintype

/-- Modelled from the spec: terminal stages are `DomainUnavailable`,
`Delivered`, `Failed` (glossary of the design document). -/
def Stage.isTerminal : Stage → Bool
  | Stage.domainUnavailable => true
  | Stage.delivered => true
  | Stage.failed => true
  | _ => false

/-- Forward-progress measure on stages: every edge of the section 4.1
transition graph strictly increases it. -/
def Stage.rank : Stage → Nat
  | Stage.created => 0
  | Stage.domainChecking => 1
  | Stage.domainUnavailable => 2
  | Stage.awaitingPayment => 2
  | Stage.provisioning => 3
  | Stage.configuringHosting => 4
  | Stage.configuringDns => 5
  | Stage.delivered => 6
  | Stage.failed => 7

/-- Modelled from the spec: the transition graph of section 4.1, including
the escape to `Failed` from any non-terminal stage. -/
def allowedEdge : Stage → Stage → Bool
  | Stage.created, Stage.domainChecking => true
  | Stage.domainChecking, Stage.domainUnavailable => true
  | Stage.domainChecking, Stage.awaitingPayment => true
  | Stage.awaitingPayment, Stage.provisioning => true
  | Stage.provisioning, Stage.configuringHosting => true
  | Stage.configuringHosting, Stage.configuringDns => true
  | Stage.configuringDns, Stage.delivered => true
  | s, Stage.failed => !s.isTerminal
  | _, _ => false

/-- Modelled from the spec: the `ConciergeRequest` record of section 3 (the
backend store schema is not in the shipped sources).  Timestamps are omitted:
no claim depends on them. -/
structure ConciergeRequest where
  id : Nat
  website_id : Nat
  contact_email : String
  preferred_domain : String
  urgency : Urgency
  price : Nat
  stage : Stage
  payment_reference : Option Nat := none
  alternatives : List String := []
  failure_reason : Option String := none
deriving DecidableEq, Repr

/-- Modelled from the spec: the Provisioning Request Store (section 4.2)
holding the concierge request records, together with the accumulated side
effects of completed provisioning steps on the external collaborators
(recorded to state the no-rollback property). -/
structure Store where
  reqs : List ConciergeRequest
  effects : List String := []
deriving DecidableEq, Repr

/-- Modelled from the spec: the store error taxonomy of sections 4.2 and 7. -/
inductive StoreError where
  | duplicateRequest
  | notFound
  | staleTransition
deriving DecidableEq, Repr

/-- `get(id)` of the store (section 4.2). -/
def Store.get (s : Store) (id : Nat) : Option ConciergeRequest :=
  s.reqs.find? (fun r => r.id == id)

/-- `findByPaymentReference(ref)` of the store (section 4.2). -/
def Store.findByPaymentReference (s : Store) (ref : Nat) :
    Option ConciergeRequest :=
  s.reqs.find? (fun r => r.payment_reference == some ref)

/-- Does `website_id` already have a non-terminal request outstanding?
(the `DuplicateRequest` guard of `create`, section 4.2). -/
def hasOutstanding (s : Store) (wid : Nat) : Bool :=
  s.reqs.any (fun r => r.website_id == wid && !r.stage.isTerminal)

/-- A request id not yet used by any record of the store (section 3: `id` is
a unique identifier generated at creation). -/
def freshId (s : Store) : Nat :=
  s.reqs.foldr (fun r m => max m (r.id + 1)) 0

/-- Modelled from the spec: `create(request)` of section 4.2 — fails with
`DuplicateRequest` if `website_id` already has a non-terminal request
outstanding; otherwise inserts a fresh record at stage `Created` with the
price computed from the urgency (section 3). -/
def Store.create (s : Store) (wid : Nat) (email dom : String) (u : Urgency) :
    Except StoreError Store :=
  if hasOutstanding s wid then Except.error StoreError.duplicateRequest
  else Except.ok
    { s with reqs :=
        { id := freshId s, website_id := wid, contact_email := email,
          preferred_domain := dom, urgency := u,
          price := totalPriceEuros u, stage := Stage.created } :: s.reqs }

/-- Modelled from the spec: the optional field updates carried by a
`transition` call (section 4.2). -/
structure TransitionFields where
  set_payment_reference : Option Nat := none
  set_alternatives : Option (List String) := none
  set_failure_reason : Option String := none
deriving DecidableEq, Repr

/-- Apply the optional field updates of a transition to a record. -/
def applyFields (r : ConciergeRequest) (f : TransitionFields) :
    ConciergeRequest :=
  { r with
    payment_reference :=
      match f.set_payment_reference with
      | some p => some p
      | none => r.payment_reference,
    alternatives :=
      match f.set_alternatives with
      | some a => a
      | none => r.alternatives,
    failure_reason :=
      match f.set_failure_reason with
      | some m => some m
      | none => r.failure_reason }

/-- The conditional row update of `transition`: a record is rewritten only
when both its id and its current stage match (optimistic concurrency). -/
def updReq (id : Nat) (expected newStage : Stage) (fields : TransitionFields)
    (q : ConciergeRequest) : ConciergeRequest :=
  if q.id == id && q.stage == expected then
    { applyFields q fields with stage := newStage }
  else q

/-- Modelled from the spec: `transition(id, expected_stage, new_stage,
fields)` of section 4.2 — conditional update succeeding only if the stored
stage equals `expected_stage`, failing with `StaleTransition` otherwise and
with `NotFound` for an unknown id. -/
def Store.transition (s : Store) (id : Nat) (expected newStage : Stage)
    (fields : TransitionFields) : Except StoreError Store :=
  match s.get id with
  | none => Except.error StoreError.notFound
  | some r =>
    if r.stage = expected then
      Except.ok { s with reqs := s.reqs.map (updReq id expected newStage fields) }
    else Except.error StoreError.staleTransition

/-- Modelled from the spec: the engine's use of `transition` — a
`StaleTransition` result is treated as "already advanced, skip" and an
unknown id is rejected without mutating anything (sections 4.1, 4.2, 7). -/
def engineApplyTransition (s : Store) (id : Nat) (expected newStage : Stage)
    (fields : TransitionFields) : Store :=
  match s.transition id expected newStage fields with
  | Except.ok s2 => s2
  | Except.error _ => s

/-- Modelled from the spec: the opaque payment reference minted when a
request enters `AwaitingPayment`, keyed by `(request.id, price)`
(section 4.1). -/
def mintReference (id price : Nat) : Nat :=
  id * 1000 + price

/-- The payment-link formula of backend `server.py` line ~880, quoted in
`src/GUIDE_CLES_API.md`: a PayPal.me URL depending only on the price. -/
def paymentLinkFor (price : Nat) : String :=
  "https://paypal.me/aiwebgen/" ++ toString price ++ "EUR"

/-- Modelled from the spec: issuing (or re-issuing) a payment link for a
request — an existing `payment_reference` is reused, never replaced; a
fresh one is minted only when none is set (sections 4.1 and 6,
`IssuePaymentLink`). -/
def issueLink (r : ConciergeRequest) : ConciergeRequest × Nat × String :=
  match r.payment_reference with
  | some ref => (r, ref, paymentLinkFor r.price)
  | none =>
    let ref := mintReference r.id r.price
    ({ r with payment_reference := some ref }, ref, paymentLinkFor r.price)

/-- One attempt of the external domain availability check (section 6,
`CheckDomain`): decisive answer or a transient error to be retried. -/
inductive DomainCheckTry where
  | available
  | taken (alternatives : List String)
  | transientError (err : String)
deriving DecidableEq, Repr

/-- Aggregate decision of a run of domain-check attempts. -/
inductive DomainDecision where
  | available
  | taken (alternatives : List String)
  | undecided
deriving DecidableEq, Repr

/-- First decisive answer among the attempts, if any. -/
def decideDomain : List DomainCheckTry → DomainDecision
  | [] => DomainDecision.undecided
  | DomainCheckTry.available :: _ => DomainDecision.available
  | DomainCheckTry.taken alts :: _ => DomainDecision.taken alts
  | DomainCheckTry.transientError _ :: rest => decideDomain rest

/-- Error message of the last attempt of a run, for `failure_reason`. -/
def lastTryError : List DomainCheckTry → String
  | [] => ""
  | [DomainCheckTry.transientError e] => e
  | [_] => ""
  | _ :: rest => lastTryError rest

/-- Outcome of one attempt of a provisioning step's external call
(section 6: `PurchaseDomain`, `ConfigureHosting`, `ConfigureDns`). -/
inductive StepOutcome where
  | success
  | failure (err : String)
deriving DecidableEq, Repr

/-- Did any attempt of the run succeed? -/
def stepSucceeds (attempts : List StepOutcome) : Bool :=
  attempts.any (fun a =>
    match a with
    | StepOutcome.success => true
    | StepOutcome.failure _ => false)

/-- Error message of the last attempt, for `failure_reason`. -/
def lastErrorMsg (attempts : List StepOutcome) : String :=
  match attempts.getLast? with
  | some (StepOutcome.failure e) => e
  | _ => ""

/-- Modelled from the spec: the three provisioning steps of section 4.1,
each calling one external collaborator. -/
inductive ProvStepId where
  | domainPurchase
  | hostingSetup
  | dnsSsl
deriving DecidableEq, Repr

/-- Stage a request must be in for the step to run. -/
def ProvStepId.source : ProvStepId → Stage
  | ProvStepId.domainPurchase => Stage.provisioning
  | ProvStepId.hostingSetup => Stage.configuringHosting
  | ProvStepId.dnsSsl => Stage.configuringDns

/-- Stage the request advances to when the step succeeds. -/
def ProvStepId.target : ProvStepId → Stage
  | ProvStepId.domainPurchase => Stage.configuringHosting
  | ProvStepId.hostingSetup => Stage.configuringDns
  | ProvStepId.dnsSsl => Stage.delivered

/-- Identifier of the step, recorded in `failure_reason` on exhaustion. -/
def ProvStepId.name : ProvStepId → String
  | ProvStepId.domainPurchase => "domain_purchase"
  | ProvStepId.hostingSetup => "hosting_setup"
  | ProvStepId.dnsSsl => "dns_ssl_configuration"

/-- External side effect recorded when the step completes successfully. -/
def ProvStepId.effect : ProvStepId → String
  | ProvStepId.domainPurchase => "domain_purchased"
  | ProvStepId.hostingSetup => "hosting_configured"
  | ProvStepId.dnsSsl => "dns_ssl_configured"

/-- Result reported by the payment-confirmation signal handler
(sections 4.1, 6, 7): an actual transition, an idempotent no-op for an
already-processed reference, or a rejection of an unknown reference. -/
inductive ConfirmResult where
  | advanced
  | alreadyProcessed
  | unknownReference
deriving DecidableEq, Repr

/-- Modelled from the spec: the reference the engine persists when a request
enters `AwaitingPayment` — an already assigned reference is reused, a fresh
one is minted only when none is set (sections 4.1 and 6). -/
def refChoice (r : ConciergeRequest) : Nat :=
  match r.payment_reference with
  | some p => p
  | none => mintReference r.id r.price

/-- Modelled from the spec: the `ConfirmPayment` signal handler
(section 4.1) — resolves the request by `payment_reference`; a request at
`AwaitingPayment` advances to `Provisioning`; a request already past
`AwaitingPayment` is left untouched (idempotent no-op, not an error); an
unknown reference is rejected without mutating any request. -/
def confirmPaymentSignal (s : Store) (ref : Nat) : Store × ConfirmResult :=
  match s.findByPaymentReference ref with
  | none => (s, ConfirmResult.unknownReference)
  | some r =>
    if r.stage = Stage.awaitingPayment then
      (engineApplyTransition s r.id Stage.awaitingPayment Stage.provisioning {},
       ConfirmResult.advanced)
    else (s, ConfirmResult.alreadyProcessed)

/-- Modelled from the spec: the operations of the Concierge Workflow Engine
(section 4.1), with the outcomes of the external collaborator calls passed
in as parameters. -/
inductive EngineOp where
  | createRequest (wid : Nat) (email dom : String) (u : Urgency)
  | startDomainCheck (id : Nat)
  | domainCheckResult (id : Nat) (tries : List DomainCheckTry)
  | reissuePaymentLink (id : Nat)
  | confirmPayment (ref : Nat)
  | runStep (id : Nat) (step : ProvStepId) (attempts : List StepOutcome)
deriving DecidableEq, Repr

/-- Modelled from the spec: the effect of each engine operation on the store
(section 4.1).  `createRequest` inserts a record at `Created` (or rejects a
duplicate); `startDomainCheck` is the synchronous `Created → DomainChecking`
transition; `domainCheckResult` settles the domain check — available issues
the payment link (reusing any existing reference) and enters
`AwaitingPayment`, taken stores up to 5 alternatives and enters
`DomainUnavailable`, and three exhausted transient errors fall to `Failed`;
`reissuePaymentLink` re-issues the link reusing the stored reference;
`confirmPayment` is the idempotent confirmation signal; `runStep` runs one
provisioning step — a success advances the stage and records the external
side effect, three exhausted failures fall to `Failed` with the step's
identifier and last error, fewer attempts leave the stage unchanged. -/
def applyOp (s : Store) : EngineOp → Store
  | EngineOp.createRequest wid email dom u =>
    match s.create wid email dom u with
    | Except.ok s2 => s2
    | Except.error _ => s
  | EngineOp.startDomainCheck id =>
    engineApplyTransition s id Stage.created Stage.domainChecking {}
  | EngineOp.domainCheckResult id tries =>
    match decideDomain tries with
    | DomainDecision.available =>
      match s.get id with
      | some r =>
        engineApplyTransition s id Stage.domainChecking Stage.awaitingPayment
          { set_payment_reference := some (refChoice r) }
      | none => s
    | DomainDecision.taken alts =>
      engineApplyTransition s id Stage.domainChecking Stage.domainUnavailable
        { set_alternatives := some (alts.take 5) }
    | DomainDecision.undecided =>
      if 3 ≤ tries.length then
        engineApplyTransition s id Stage.domainChecking Stage.failed
          { set_failure_reason := some ("domain_check: " ++ lastTryError tries) }
      else s
  | EngineOp.reissuePaymentLink id =>
    match s.get id with
    | some r =>
      if r.stage = Stage.awaitingPayment then
        { s with reqs := s.reqs.map (fun q =>
            if q.id == id && q.stage == Stage.awaitingPayment then (issueLink q).1 else q) }
      else s
    | none => s
  | EngineOp.confirmPayment ref => (confirmPaymentSignal s ref).1
  | EngineOp.runStep id step attempts =>
    if stepSucceeds attempts then
      match s.transition id step.source step.target {} with
      | Except.ok s2 => { s2 with effects := s2.effects ++ [step.effect] }
      | Except.error _ => s
    else if 3 ≤ attempts.length then
      engineApplyTransition s id step.source Stage.failed
        { set_failure_reason := some (step.name ++ ": " ++ lastErrorMsg attempts) }
    else s

/-- Stores reachable by the engine from the empty store. -/
inductive Reachable : Store → Prop
  | init : Reachable { reqs := [], effects := [] }
  | step {s : Store} (op : EngineOp) : Reachable s → Reachable (applyOp s op)

/-- Stage of the request with the given id, if present. -/
def stageOf (s : Store) (id : Nat) : Option Stage :=
  (s.get id).map ConciergeRequest.stage

/-- Payment reference of the request with the given id, if present and set. -/
def refOf (s : Store) (id : Nat) : Option Nat :=
  (s.get id).bind ConciergeRequest.payment_reference

/-- Alternatives list of the request with the given id, if present. -/
def altsOf (s : Store) (id : Nat) : Option (List String) :=
  (s.get id).map ConciergeRequest.alternatives

/-- Failure reason of the request with the given id, if present and set. -/
def failureOf (s : Store) (id : Nat) : Option String :=
  (s.get id).bind ConciergeRequest.failure_reason

/-! Infrastructure lemmas about the store operations. -/

theorem allowedEdge_rank : ∀ a b : Stage, allowedEdge a b = true → a.rank < b.rank := by
  decide

theorem allowedEdge_of_terminal : ∀ a b : Stage, a.isTerminal = true → allowedEdge a b = false := by
  decide

theorem updReq_id (id : Nat) (exp new : Stage) (fl : TransitionFields)
    (q : ConciergeRequest) : (updReq id exp new fl q).id = q.id := by
  unfold updReq; split <;> rfl

theorem updReq_stage (id : Nat) (exp new : Stage) (fl : TransitionFields)
    (q : ConciergeRequest) :
    (updReq id exp new fl q).stage = q.stage ∨
      (q.stage = exp ∧ (updReq id exp new fl q).stage = new) := by
  unfold updReq
  split
  case isTrue h =>
    right
    refine ⟨?_, rfl⟩
    have h2 := (Bool.and_eq_true _ _).mp h |>.2
    exact eq_of_beq h2
  case isFalse h => left; rfl

theorem get_mk_map (l : List ConciergeRequest) (e : List String)
    (g : ConciergeRequest → ConciergeRequest) (hg : ∀ q, (g q).id = q.id)
    (j : Nat) :
    Store.get ⟨l.map g, e⟩ j = (Store.get ⟨l, e⟩ j).map g := by
  unfold Store.get
  simp only [List.find?_map]
  have hp : ((fun r : ConciergeRequest => r.id == j) ∘ g) = (fun r => r.id == j) := by
    funext q
    simp [Function.comp, hg]
  rw [hp]

theorem get_transition_ok {s : Store} {id : Nat} {exp new : Stage}
    {fl : TransitionFields} {s2 : Store}
    (h : s.transition id exp new fl = Except.ok s2) (j : Nat) :
    s2.get j = (s.get j).map (updReq id exp new fl) := by
  unfold Store.transition at h
  split at h
  · exact absurd h (by simp)
  · split at h
    · have h2 := Except.ok.inj h
      subst h2
      exact get_mk_map s.reqs s.effects (updReq id exp new fl)
        (updReq_id id exp new fl) j
    · exact absurd h (by simp)

theorem engineApply_cases (s : Store) (id : Nat) (exp new : Stage)
    (fl : TransitionFields) :
    engineApplyTransition s id exp new fl = s ∨
      ∀ j, (engineApplyTransition s id exp new fl).get j =
        (s.get j).map (updReq id exp new fl) := by
  cases h : s.transition id exp new fl with
  | ok s2 =>
    right
    intro j
    simp only [engineApplyTransition, h]
    exact get_transition_ok h j
  | error e =>
    left
    simp only [engineApplyTransition, h]

theorem id_lt_sup {r : ConciergeRequest} {l : List ConciergeRequest}
    (h : r ∈ l) : r.id < l.foldr (fun q m => max m (q.id + 1)) 0 := by
  induction l with
  | nil => cases h
  | cons a t ih =>
    simp only [List.foldr_cons]
    cases h with
    | head =>
      exact Nat.lt_of_lt_of_le (Nat.lt_succ_self _) (Nat.le_max_right _ _)
    | tail _ ht =>
      exact Nat.lt_of_lt_of_le (ih ht) (Nat.le_max_left _ _)

theorem get_eq_some_id {s : Store} {j : Nat} {r : ConciergeRequest}
    (h : s.get j = some r) : r ∈ s.reqs ∧ r.id = j := by
  unfold Store.get at h
  refine ⟨List.mem_of_find?_eq_some h, ?_⟩
  have := List.find?_some h
  exact eq_of_beq this

theorem get_create_ok {s : Store} {wid : Nat} {email dom : String}
    {u : Urgency} {s2 : Store}
    (h : s.create wid email dom u = Except.ok s2) (j : Nat) :
    (s.get j).isSome = true → s2.get j = s.get j := by
  intro hj
  unfold Store.create at h
  by_cases hdup : hasOutstanding s wid = true
  · rw [if_pos hdup] at h; exact absurd h (by simp)
  · rw [if_neg hdup] at h
    have h2 := Except.ok.inj h
    subst h2
    cases hg : s.get j with
    | none => rw [hg] at hj; simp at hj
    | some r =>
      obtain ⟨hmem, hid⟩ := get_eq_some_id hg
      have hlt : r.id < freshId s := id_lt_sup hmem
      show Store.get ⟨_ :: s.reqs, s.effects⟩ j = some r
      unfold Store.get at hg ⊢
      rw [List.find?_cons_of_neg, hg]
      simp only [beq_iff_eq]
      omega

theorem issueLink_id (q : ConciergeRequest) : (issueLink q).1.id = q.id := by
  unfold issueLink; cases q.payment_reference <;> rfl

theorem issueLink_stage (q : ConciergeRequest) :
    (issueLink q).1.stage = q.stage := by
  unfold issueLink; cases q.payment_reference <;> rfl

theorem issueLink_of_some {q : ConciergeRequest} {p : Nat}
    (h : q.payment_reference = some p) :
    (issueLink q).1 = q ∧ (issueLink q).2.1 = p := by
  unfold issueLink; rw [h]; exact ⟨rfl, rfl⟩

theorem get_set_effects (s : Store) (e : List String) (j : Nat) :
    Store.get { s with effects := e } j = s.get j := rfl

theorem stageOf_map_upd {s s2 : Store} {id : Nat} {exp new : Stage}
    {fl : TransitionFields}
    (hmap : ∀ j, s2.get j = (s.get j).map (updReq id exp new fl))
    {j : Nat} {st st2 : Stage}
    (h1 : stageOf s j = some st) (h2 : stageOf s2 j = some st2) :
    st2 = st ∨ (st = exp ∧ st2 = new) := by
  unfold stageOf at h1 h2
  rw [hmap j] at h2
  cases hg : s.get j with
  | none => rw [hg] at h1; simp at h1
  | some r =>
    rw [hg] at h1 h2
    simp only [Option.map_some', Option.some.injEq] at h1 h2
    rcases updReq_stage id exp new fl r with hs | ⟨hse, hsn⟩
    · left; exact h2.symm.trans (hs.trans h1)
    · right; exact ⟨h1.symm.trans hse, h2.symm.trans hsn⟩

theorem stageOf_engineApply {s : Store} {id : Nat} {exp new : Stage}
    {fl : TransitionFields} {j : Nat} {st st2 : Stage}
    (h1 : stageOf s j = some st)
    (h2 : stageOf (engineApplyTransition s id exp new fl) j = some st2) :
    st2 = st ∨ (st = exp ∧ st2 = new) := by
  rcases engineApply_cases s id exp new fl with heq | hmap
  · rw [heq, h1] at h2
    left
    exact (Option.some.inj h2).symm
  · exact stageOf_map_upd hmap h1 h2

theorem stageOf_map_pres {s : Store} {g : ConciergeRequest → ConciergeRequest}
    (hgid : ∀ q, (g q).id = q.id) (hgst : ∀ q, (g q).stage = q.stage)
    {j : Nat} {st st2 : Stage}
    (h1 : stageOf s j = some st)
    (h2 : stageOf (⟨s.reqs.map g, s.effects⟩ : Store) j = some st2) :
    st2 = st := by
  unfold stageOf at h1 h2
  rw [get_mk_map s.reqs s.effects g hgid j] at h2
  cases hg : s.get j with
  | none => rw [hg] at h1; simp at h1
  | some r =>
    rw [hg] at h1 h2
    simp only [Option.map_some', Option.some.injEq] at h1 h2
    exact h2.symm.trans ((hgst r).trans h1)

theorem isSome_of_stageOf {s : Store} {j : Nat} {st : Stage}
    (h : stageOf s j = some st) : (s.get j).isSome = true := by
  unfold stageOf at h
  cases hg : s.get j
  · rw [hg] at h; simp at h
  · simp

theorem stageOf_set_effects (s : Store) (e : List String) (j : Nat) :
    stageOf { s with effects := e } j = stageOf s j := rfl

theorem stage_step {s : Store} {op : EngineOp} {j : Nat} {st st2 : Stage}
    (h1 : stageOf s j = some st)
    (h2 : stageOf (applyOp s op) j = some st2) :
    st = st2 ∨ allowedEdge st st2 = true := by
  cases op with
  | createRequest wid email dom u =>
    simp only [applyOp] at h2
    split at h2
    · rename_i s2 hc
      left
      unfold stageOf at h1 h2
      rw [get_create_ok hc j (isSome_of_stageOf h1)] at h2
      exact Option.some.inj (h1.symm.trans h2)
    · left; exact Option.some.inj (h1.symm.trans h2)
  | startDomainCheck id =>
    rcases stageOf_engineApply h1 h2 with h | ⟨he, hn⟩
    · left; exact h.symm
    · right; rw [he, hn]; decide
  | domainCheckResult id tries =>
    simp only [applyOp] at h2
    split at h2
    · split at h2
      · rcases stageOf_engineApply h1 h2 with h | ⟨he, hn⟩
        · left; exact h.symm
        · right; rw [he, hn]; decide
      · left; exact Option.some.inj (h1.symm.trans h2)
    · rcases stageOf_engineApply h1 h2 with h | ⟨he, hn⟩
      · left; exact h.symm
      · right; rw [he, hn]; decide
    · split at h2
      · rcases stageOf_engineApply h1 h2 with h | ⟨he, hn⟩
        · left; exact h.symm
        · right; rw [he, hn]; decide
      · left; exact Option.some.inj (h1.symm.trans h2)
  | reissuePaymentLink id =>
    simp only [applyOp] at h2
    split at h2
    · rename_i r hget
      split at h2
      · left
        refine (stageOf_map_pres
          (g := fun q =>
            if q.id == id && q.stage == Stage.awaitingPayment then (issueLink q).1 else q)
          ?_ ?_ h1 h2).symm
        · intro q; dsimp only; split
          · exact issueLink_id q
          · rfl
        · intro q; dsimp only; split
          · exact issueLink_stage q
          · rfl
      · left; exact Option.some.inj (h1.symm.trans h2)
    · left; exact Option.some.inj (h1.symm.trans h2)
  | confirmPayment ref =>
    simp only [applyOp, confirmPaymentSignal] at h2
    split at h2
    · left; exact Option.some.inj (h1.symm.trans h2)
    · split at h2
      · rcases stageOf_engineApply h1 h2 with h | ⟨he, hn⟩
        · left; exact h.symm
        · right; rw [he, hn]; decide
      · left; exact Option.some.inj (h1.symm.trans h2)
  | runStep id step attempts =>
    simp only [applyOp] at h2
    split at h2
    · split at h2
      · rename_i s2 hc
        rw [stageOf_set_effects] at h2
        rcases stageOf_map_upd (get_transition_ok hc) h1 h2 with h | ⟨he, hn⟩
        · left; exact h.symm
        · right; rw [he, hn]; cases step <;> decide
      · left; exact Option.some.inj (h1.symm.trans h2)
    · split at h2
      · rcases stageOf_engineApply h1 h2 with h | ⟨he, hn⟩
        · left; exact h.symm
        · right; rw [he, hn]; cases step <;> decide
      · left; exact Option.some.inj (h1.symm.trans h2)

theorem transition_ok_eq {s s2 : Store} {id : Nat} {exp new : Stage}
    {fl : TransitionFields}
    (h : s.transition id exp new fl = Except.ok s2) :
    s2 = { s with reqs := s.reqs.map (updReq id exp new fl) } := by
  unfold Store.transition at h
  split at h
  · exact absurd h (by simp)
  · split at h
    · exact (Except.ok.inj h).symm
    · exact absurd h (by simp)

theorem transition_ok_of {s : Store} {id : Nat} {r : ConciergeRequest}
    (exp new : Stage) (fl : TransitionFields)
    (hget : s.get id = some r) (hst : r.stage = exp) :
    s.transition id exp new fl =
      Except.ok { s with reqs := s.reqs.map (updReq id exp new fl) } := by
  unfold Store.transition
  rw [hget]
  simp only [hst, if_pos]

theorem transition_stale_of {s : Store} {id : Nat} {r : ConciergeRequest}
    (exp new : Stage) (fl : TransitionFields)
    (hget : s.get id = some r) (hst : r.stage ≠ exp) :
    s.transition id exp new fl = Except.error StoreError.staleTransition := by
  unfold Store.transition
  rw [hget]
  exact if_neg hst

theorem engineApply_eq (s : Store) (id : Nat) (exp new : Stage)
    (fl : TransitionFields) :
    engineApplyTransition s id exp new fl = s ∨
      engineApplyTransition s id exp new fl =
        { s with reqs := s.reqs.map (updReq id exp new fl) } := by
  cases h : s.transition id exp new fl with
  | ok s2 =>
    right
    simp only [engineApplyTransition, h]
    exact transition_ok_eq h
  | error e =>
    left
    simp only [engineApplyTransition, h]

theorem updReq_cases (id : Nat) (exp new : Stage) (fl : TransitionFields)
    (q : ConciergeRequest) :
    updReq id exp new fl q = q ∨
      (q.stage = exp ∧
        updReq id exp new fl q = { applyFields q fl with stage := new }) := by
  unfold updReq
  split
  case isTrue h =>
    right
    exact ⟨eq_of_beq ((Bool.and_eq_true _ _).mp h).2, rfl⟩
  case isFalse h => left; rfl

theorem updReq_skip {q : ConciergeRequest} (id : Nat) {exp : Stage}
    (new : Stage) (fl : TransitionFields) (h : q.stage ≠ exp) :
    updReq id exp new fl q = q := by
  unfold updReq
  rw [if_neg]
  intro hc
  exact h (eq_of_beq ((Bool.and_eq_true _ _).mp hc).2)

theorem updReq_website_id (id : Nat) (exp new : Stage) (fl : TransitionFields)
    (q : ConciergeRequest) :
    (updReq id exp new fl q).website_id = q.website_id := by
  unfold updReq; split <;> rfl

theorem updReq_ref_of_none (id : Nat) (exp new : Stage) {fl : TransitionFields}
    (h : fl.set_payment_reference = none) (q : ConciergeRequest) :
    (updReq id exp new fl q).payment_reference = q.payment_reference := by
  unfold updReq
  split
  · show (applyFields q fl).payment_reference = q.payment_reference
    unfold applyFields
    rw [h]
  · rfl

theorem findRef_mk_map (l : List ConciergeRequest) (e : List String)
    (g : ConciergeRequest → ConciergeRequest)
    (hg : ∀ q, (g q).payment_reference = q.payment_reference) (ref : Nat) :
    Store.findByPaymentReference ⟨l.map g, e⟩ ref =
      (Store.findByPaymentReference ⟨l, e⟩ ref).map g := by
  unfold Store.findByPaymentReference
  simp only [List.find?_map]
  have hp : ((fun r : ConciergeRequest => r.payment_reference == some ref) ∘ g) =
      (fun r => r.payment_reference == some ref) := by
    funext q
    simp [Function.comp, hg]
  rw [hp]

theorem refOf_eq_get (s : Store) (id : Nat) :
    refOf s id = (s.get id).bind ConciergeRequest.payment_reference := rfl

theorem updReq_hit {q : ConciergeRequest} {id : Nat} {exp : Stage}
    (new : Stage) (fl : TransitionFields) (hid : q.id = id) (hst : q.stage = exp) :
    updReq id exp new fl q = { applyFields q fl with stage := new } := by
  unfold updReq
  have hc : (q.id == id && q.stage == exp) = true := by
    rw [Bool.and_eq_true]
    exact ⟨beq_iff_eq.mpr hid, beq_iff_eq.mpr hst⟩
  rw [if_pos hc]

/-- C3: every mutation of a request's stage performed by an engine operation
follows an edge of the fixed transition graph of the design (section 4.1,
with the escape to `Failed` only from non-terminal stages), and the stage
never moves backwards: its rank never decreases. -/
theorem c3_stage_transitions_follow_graph (s : Store) (op : EngineOp)
    (j : Nat) (st st2 : Stage)
    (h1 : stageOf s j = some st)
    (h2 : stageOf (applyOp s op) j = some st2) :
    (st = st2 ∨ allowedEdge st st2 = true) ∧ st.rank ≤ st2.rank := by
  rcases stage_step h1 h2 with h | h
  · subst h
    exact ⟨Or.inl rfl, Nat.le_refl _⟩
  · exact ⟨Or.inr h, Nat.le_of_lt (allowedEdge_rank st st2 h)⟩

/-- A concrete store with a single freshly created request, used by the
witnesses below. -/
def wReq1 : ConciergeRequest :=
  { id := 1, website_id := 10, contact_email := "client@example.com",
    preferred_domain := "cafelapause.com", urgency := Urgency.normal,
    price := 49, stage := Stage.created }

/-- Concrete store holding `wReq1`. -/
def wStore1 : Store := { reqs := [wReq1], effects := [] }

/-- Witness for C3 at a concrete input: checking the domain of the freshly
created request takes the `Created → DomainChecking` edge. -/
theorem c3_witness :
    stageOf wStore1 1 = some Stage.created ∧
    stageOf (applyOp wStore1 (EngineOp.startDomainCheck 1)) 1 =
      some Stage.domainChecking ∧
    ((Stage.created = Stage.domainChecking ∨
        allowedEdge Stage.created Stage.domainChecking = true) ∧
      Stage.created.rank ≤ Stage.domainChecking.rank) :=
  ⟨rfl, rfl,
    c3_stage_transitions_follow_graph wStore1 (EngineOp.startDomainCheck 1) 1
      Stage.created Stage.domainChecking rfl rfl⟩

/-- C7: the store's `transition` updates the record exactly when the stored
stage equals `expected_stage`; otherwise it fails with `StaleTransition`,
leaving the store unchanged, and the engine treats that result as a benign
skip (`engineApplyTransition` returns the store unchanged).  A completed
transition makes an identical retry stale, so per-request transitions are
strictly sequential. -/
theorem c7_transition_optimistic (s : Store) (id : Nat) (exp new : Stage)
    (fl : TransitionFields) (r : ConciergeRequest)
    (hget : s.get id = some r) :
    (r.stage = exp →
      s.transition id exp new fl =
        Except.ok { s with reqs := s.reqs.map (updReq id exp new fl) }) ∧
    (r.stage ≠ exp →
      s.transition id exp new fl = Except.error StoreError.staleTransition ∧
      engineApplyTransition s id exp new fl = s) ∧
    (∀ s2, s.transition id exp new fl = Except.ok s2 → new ≠ exp →
      s2.transition id exp new fl = Except.error StoreError.staleTransition ∧
      engineApplyTransition s2 id exp new fl = s2) := by
  refine ⟨fun hst => transition_ok_of exp new fl hget hst, ?_, ?_⟩
  · intro hst
    have he := transition_stale_of exp new fl hget hst
    exact ⟨he, by simp only [engineApplyTransition, he]⟩
  · intro s2 hok hne
    by_cases hst : r.stage = exp
    · have hs2 := transition_ok_eq hok
      subst hs2
      have hget2 : Store.get { s with reqs := s.reqs.map (updReq id exp new fl) } id =
          some (updReq id exp new fl r) := by
        have := get_mk_map s.reqs s.effects (updReq id exp new fl)
          (updReq_id id exp new fl) id
        rw [show (⟨s.reqs.map (updReq id exp new fl), s.effects⟩ : Store) =
          { s with reqs := s.reqs.map (updReq id exp new fl) } from rfl] at this
        rw [this, hget]
        rfl
      have hid : r.id = id := (get_eq_some_id hget).2
      have hupd : updReq id exp new fl r = { applyFields r fl with stage := new } :=
        updReq_hit new fl hid hst
      have hstale : ({ s with reqs := s.reqs.map (updReq id exp new fl) } : Store).transition
          id exp new fl = Except.error StoreError.staleTransition := by
        refine transition_stale_of exp new fl hget2 ?_
        rw [hupd]
        exact hne
      exact ⟨hstale, by simp only [engineApplyTransition, hstale]⟩
    · have := transition_stale_of exp new fl hget hst
      rw [this] at hok
      exact absurd hok (by simp)

/-- Witness for C7 at a concrete input: the transition out of `Created`
succeeds once and an identical retry is stale. -/
theorem c7_witness :
    wStore1.transition 1 Stage.created Stage.domainChecking {} =
      Except.ok { wStore1 with
        reqs := wStore1.reqs.map (updReq 1 Stage.created Stage.domainChecking {}) } ∧
    ({ wStore1 with
        reqs := wStore1.reqs.map (updReq 1 Stage.created Stage.domainChecking {}) } : Store).transition
      1 Stage.created Stage.domainChecking {} =
      Except.error StoreError.staleTransition :=
  ⟨(c7_transition_optimistic wStore1 1 Stage.created Stage.domainChecking {} wReq1 rfl).1 rfl,
   ((c7_transition_optimistic wStore1 1 Stage.created Stage.domainChecking {} wReq1 rfl).2.2 _
      ((c7_transition_optimistic wStore1 1 Stage.created Stage.domainChecking {} wReq1 rfl).1 rfl)
      (by decide)).1⟩

end IAWebgen.Backend

namespace IAWebgen

/-- C8 counterexample: at the concrete urgency inputs, the final
chronology window the modal shows an urgent client (24h, ConciergeModal.js
line 341) is not shorter than the window shown a normal client (4h), so an
urgent request does not get a shorter reported completion window. -/
theorem c8_counterexample :
    ¬ (chronologieFinalWindowHours Urgency.urgent <
        chronologieFinalWindowHours Urgency.normal) := by
  decide

/-- C8 amended: urgency urgent sets the price to the surcharged amount
(the normal 49 euros plus the 10-euro surcharge), and the chronology
reported to the client reflects the 24-hour urgent window, which is longer
than the 4-hour normal window (matching the advertised 2-4h normal / 24h
urgent delivery promise). -/
theorem c8_urgent_price_and_window :
    totalPriceEuros Urgency.urgent = totalPriceEuros Urgency.normal + 10 ∧
    chronologieFinalWindowHours Urgency.urgent = 24 ∧
    chronologieFinalWindowHours Urgency.normal = 4 ∧
    chronologieFinalWindowHours Urgency.normal <
      chronologieFinalWindowHours Urgency.urgent := by
  decide

/-- C9: the confirm button invoking `handleSubmit` is disabled exactly when
the contact email is empty, the preferred domain is empty, or a submission
is already in flight — so the modal never sends a request-concierge-service
call with an empty email or empty domain. -/
theorem c9_confirm_disabled_iff (email domain : String) (loading : Bool) :
    confirmDisabled email domain loading = true ↔
      email = "" ∨ domain = "" ∨ loading = true := by
  unfold confirmDisabled
  rw [Bool.or_eq_true, Bool.or_eq_true, String.isEmpty_iff, String.isEmpty_iff]
  exact or_assoc

/-- Witness for C9 at a concrete input: with an empty email the button is
disabled. -/
theorem c9_witness :
    confirmDisabled "" "cafelapause.com" false = true :=
  (c9_confirm_disabled_iff "" "cafelapause.com" false).mpr (Or.inl rfl)

end IAWebgen

namespace IAWebgen.SW

/-- C10: a non-GET request under `/api/` is routed by the fetch listener to
`handleApiRequest`, which never reads nor writes any cache for it: the
request is forwarded to the network with the cache unchanged, and a network
failure yields the generic 503 JSON response instead of propagating. -/
theorem c10_non_get_api_bypasses_cache (req : ApiRequest) (cache : Cache)
    (net : NetResult)
    (hapi : strStartsWith req.pathname "/api/" = true)
    (hm : req.method ≠ "GET") :
    fetchRoute req = FetchRoute.api ∧
    (∀ r, net = NetResult.ok r →
      handleApiRequest req cache net = SWOutcome.resp r cache) ∧
    (net = NetResult.failure →
      handleApiRequest req cache net = SWOutcome.resp offlineJsonResponse cache) := by
  refine ⟨?_, ?_, ?_⟩
  · unfold fetchRoute
    rw [if_pos hapi]
  · intro r hr
    subst hr
    unfold handleApiRequest
    rw [if_neg (fun h => hm h.1)]
  · intro hf
    subst hf
    unfold handleApiRequest
    rw [if_neg (fun h => hm h.1)]

/-- Witness for C10 at a concrete input: a POST to the concierge endpoint
with a failing network gets the 503 JSON response and an empty cache stays
empty. -/
theorem c10_witness :
    fetchRoute { method := "POST", pathname := "/api/request-concierge-service" } =
      FetchRoute.api ∧
    handleApiRequest { method := "POST", pathname := "/api/request-concierge-service" }
      [] NetResult.failure = SWOutcome.resp offlineJsonResponse [] :=
  ⟨(c10_non_get_api_bypasses_cache
      { method := "POST", pathname := "/api/request-concierge-service" } [] NetResult.failure
      (by decide) (by decide)).1,
   (c10_non_get_api_bypasses_cache
      { method := "POST", pathname := "/api/request-concierge-service" } [] NetResult.failure
      (by decide) (by decide)).2.2 rfl⟩

end IAWebgen.SW

namespace IAWebgen.Backend

/-- The row update performed by a successful payment confirmation. -/
def confirmUpd (id : Nat) : ConciergeRequest → ConciergeRequest :=
  updReq id Stage.awaitingPayment Stage.provisioning {}

/-- C1: the payment-confirmation signal handler is idempotent — a
confirmation carrying the payment_reference of a request already past
`AwaitingPayment` is a no-op that changes no state and reports
`alreadyProcessed` rather than an error; and for a request at
`AwaitingPayment`, delivering the same confirmation twice produces exactly
one transition out of `AwaitingPayment`: the first advances the request to
`Provisioning`, the second changes nothing and raises no error. -/
theorem c1_confirm_signal_idempotent (s : Store) (ref : Nat)
    (r : ConciergeRequest)
    (hfind : s.findByPaymentReference ref = some r) :
    (Stage.awaitingPayment.rank < r.stage.rank →
      confirmPaymentSignal s ref = (s, ConfirmResult.alreadyProcessed)) ∧
    (r.stage = Stage.awaitingPayment → s.get r.id = some r →
      (confirmPaymentSignal s ref).2 = ConfirmResult.advanced ∧
      stageOf (confirmPaymentSignal s ref).1 r.id = some Stage.provisioning ∧
      confirmPaymentSignal (confirmPaymentSignal s ref).1 ref =
        ((confirmPaymentSignal s ref).1, ConfirmResult.alreadyProcessed)) := by
  constructor
  · intro hlt
    have hne : r.stage ≠ Stage.awaitingPayment := by
      intro he
      rw [he] at hlt
      exact Nat.lt_irrefl _ hlt
    simp only [confirmPaymentSignal, hfind]
    rw [if_neg hne]
  · intro hst hget
    have hok := transition_ok_of Stage.awaitingPayment Stage.provisioning {} hget hst
    have h1 : confirmPaymentSignal s ref =
        ({ s with reqs := s.reqs.map (confirmUpd r.id) }, ConfirmResult.advanced) := by
      simp only [confirmPaymentSignal, hfind]
      rw [if_pos hst]
      simp only [engineApplyTransition, hok]
      rfl
    have hupd : confirmUpd r.id r =
        { applyFields r {} with stage := Stage.provisioning } :=
      updReq_hit Stage.provisioning {} rfl hst
    refine ⟨by rw [h1], ?_, ?_⟩
    · rw [h1]
      show stageOf { s with reqs := s.reqs.map (confirmUpd r.id) } r.id =
        some Stage.provisioning
      unfold stageOf
      have hg := get_mk_map s.reqs s.effects (confirmUpd r.id)
        (fun q => updReq_id r.id Stage.awaitingPayment Stage.provisioning {} q) r.id
      rw [show (⟨s.reqs.map (confirmUpd r.id), s.effects⟩ : Store) =
          { s with reqs := s.reqs.map (confirmUpd r.id) } from rfl] at hg
      rw [hg, hget]
      simp only [Option.map_some']
      rw [hupd]
    · rw [h1]
      have hfind2 : Store.findByPaymentReference
          { s with reqs := s.reqs.map (confirmUpd r.id) } ref = some (confirmUpd r.id r) := by
        have hm := findRef_mk_map s.reqs s.effects (confirmUpd r.id)
          (fun q => updReq_ref_of_none r.id Stage.awaitingPayment Stage.provisioning rfl q) ref
        rw [show (⟨s.reqs.map (confirmUpd r.id), s.effects⟩ : Store) =
            { s with reqs := s.reqs.map (confirmUpd r.id) } from rfl] at hm
        rw [hm, hfind]
        rfl
      have hne2 : (confirmUpd r.id r).stage ≠ Stage.awaitingPayment := by
        rw [hupd]
        exact (by decide : Stage.provisioning ≠ Stage.awaitingPayment)
      simp only [confirmPaymentSignal, hfind2]
      rw [if_neg hne2]

/-- A concrete request waiting for payment, used by the C1 witness. -/
def wReqPay : ConciergeRequest :=
  { id := 2, website_id := 20, contact_email := "client@example.com",
    preferred_domain := "free.example", urgency := Urgency.normal,
    price := 49, stage := Stage.awaitingPayment,
    payment_reference := some 2049 }

/-- Concrete store holding `wReqPay`. -/
def wStorePay : Store := { reqs := [wReqPay], effects := [] }

/-- Witness for C1 at a concrete input: the first confirmation advances the
request to `Provisioning`; the repeated confirmation with the same
reference changes nothing and reports `alreadyProcessed`. -/
theorem c1_witness :
    (confirmPaymentSignal wStorePay 2049).2 = ConfirmResult.advanced ∧
    stageOf (confirmPaymentSignal wStorePay 2049).1 wReqPay.id =
      some Stage.provisioning ∧
    confirmPaymentSignal (confirmPaymentSignal wStorePay 2049).1 2049 =
      ((confirmPaymentSignal wStorePay 2049).1, ConfirmResult.alreadyProcessed) :=
  (c1_confirm_signal_idempotent wStorePay 2049 wReqPay rfl).2 rfl rfl

end IAWebgen.Backend

namespace IAWebgen.Backend

theorem engineApply_of_ok {s : Store} {id : Nat} {r : ConciergeRequest}
    (exp new : Stage) (fl : TransitionFields)
    (hget : s.get id = some r) (hst : r.stage = exp) :
    engineApplyTransition s id exp new fl =
      { s with reqs := s.reqs.map (updReq id exp new fl) } := by
  simp only [engineApplyTransition, transition_ok_of exp new fl hget hst]

theorem get_after_engineApply {s : Store} {id : Nat} {r : ConciergeRequest}
    (exp new : Stage) (fl : TransitionFields)
    (hget : s.get id = some r) (hst : r.stage = exp) :
    (engineApplyTransition s id exp new fl).get id =
      some { applyFields r fl with stage := new } := by
  rw [engineApply_of_ok exp new fl hget hst]
  have hg := get_mk_map s.reqs s.effects (updReq id exp new fl)
    (updReq_id id exp new fl) id
  rw [show (⟨s.reqs.map (updReq id exp new fl), s.effects⟩ : Store) =
      { s with reqs := s.reqs.map (updReq id exp new fl) } from rfl] at hg
  rw [hg, hget]
  simp only [Option.map_some']
  rw [updReq_hit new fl (get_eq_some_id hget).2 hst]

/-- C6: for every provisioning step, exhausting the 3 retries moves the
request to `Failed` with `failure_reason` naming the failing step's
identifier and the last error, while the recorded side effects of earlier
successfully completed steps are left untouched (no rollback). -/
theorem c6_step_exhaustion_fails_forward (s : Store) (id : Nat)
    (step : ProvStepId) (attempts : List StepOutcome) (r : ConciergeRequest)
    (hget : s.get id = some r) (hst : r.stage = step.source)
    (hfail : stepSucceeds attempts = false) (hlen : attempts.length = 3) :
    stageOf (applyOp s (EngineOp.runStep id step attempts)) id =
      some Stage.failed ∧
    failureOf (applyOp s (EngineOp.runStep id step attempts)) id =
      some (step.name ++ ": " ++ lastErrorMsg attempts) ∧
    (applyOp s (EngineOp.runStep id step attempts)).effects = s.effects := by
  have happ : applyOp s (EngineOp.runStep id step attempts) =
      engineApplyTransition s id step.source Stage.failed
        { set_failure_reason := some (step.name ++ ": " ++ lastErrorMsg attempts) } := by
    simp only [applyOp, hfail]
    rw [if_neg Bool.false_ne_true, if_pos (show 3 ≤ attempts.length by omega)]
  rw [happ]
  have hga := get_after_engineApply step.source Stage.failed
    { set_failure_reason := some (step.name ++ ": " ++ lastErrorMsg attempts) } hget hst
  refine ⟨?_, ?_, ?_⟩
  · unfold stageOf
    rw [hga]
    rfl
  · unfold failureOf
    rw [hga]
    rfl
  · rw [engineApply_of_ok step.source Stage.failed _ hget hst]

/-- A concrete request in the DNS/SSL configuration step, used by the C6
witness. -/
def wReqDns : ConciergeRequest :=
  { id := 3, website_id := 30, contact_email := "client@example.com",
    preferred_domain := "free.example", urgency := Urgency.normal,
    price := 49, stage := Stage.configuringDns, payment_reference := some 3049 }

/-- Concrete store holding `wReqDns` after the first two steps completed. -/
def wStoreDns : Store :=
  { reqs := [wReqDns], effects := ["domain_purchased", "hosting_configured"] }

/-- A run of three failed DNS attempts. -/
def wDnsAttempts : List StepOutcome :=
  [StepOutcome.failure "dns timeout", StepOutcome.failure "dns timeout",
   StepOutcome.failure "dns refused"]

/-- Witness for C6 at a concrete input: Scenario D — ConfigureDns fails on
all 3 retries, the request fails naming the DNS step and the last error,
and the effects of the two completed steps remain recorded. -/
theorem c6_witness :
    stageOf (applyOp wStoreDns (EngineOp.runStep 3 ProvStepId.dnsSsl wDnsAttempts)) 3 =
      some Stage.failed ∧
    failureOf (applyOp wStoreDns (EngineOp.runStep 3 ProvStepId.dnsSsl wDnsAttempts)) 3 =
      some (ProvStepId.dnsSsl.name ++ ": " ++ lastErrorMsg wDnsAttempts) ∧
    (applyOp wStoreDns (EngineOp.runStep 3 ProvStepId.dnsSsl wDnsAttempts)).effects =
      wStoreDns.effects :=
  c6_step_exhaustion_fails_forward wStoreDns 3 ProvStepId.dnsSsl wDnsAttempts
    wReqDns rfl rfl rfl rfl

end IAWebgen.Backend

namespace IAWebgen.Backend

theorem ne_of_terminal {a b : Stage} (ha : a.isTerminal = true)
    (hb : b.isTerminal = false) : a ≠ b := by
  intro h
  subst h
  rw [ha] at hb
  exact Bool.noConfusion hb

theorem get_after_map_skip {s : Store} {id : Nat} {r : ConciergeRequest}
    (hget : s.get id = some r) (g : ConciergeRequest → ConciergeRequest)
    (hgid : ∀ q, (g q).id = q.id) (hgr : g r = r) :
    Store.get { s with reqs := s.reqs.map g } id = some r := by
  have hg := get_mk_map s.reqs s.effects g hgid id
  rw [show (⟨s.reqs.map g, s.effects⟩ : Store) =
      { s with reqs := s.reqs.map g } from rfl] at hg
  rw [hg, hget, Option.map_some', hgr]

theorem engineApply_get_frozen {s : Store} {id2 j : Nat} {r : ConciergeRequest}
    {exp : Stage} (new : Stage) (fl : TransitionFields)
    (hget : s.get j = some r) (hne : r.stage ≠ exp) :
    (engineApplyTransition s id2 exp new fl).get j = some r := by
  rcases engineApply_eq s id2 exp new fl with h | h
  · rw [h, hget]
  · rw [h]
    exact get_after_map_skip hget _ (updReq_id id2 exp new fl)
      (updReq_skip id2 new fl hne)

/-- No engine operation touches a request that is in a terminal stage: its
record, fetched by id, is completely unchanged. -/
theorem terminal_frozen (s : Store) (op : EngineOp) (id : Nat)
    (r : ConciergeRequest) (hget : s.get id = some r)
    (hterm : r.stage.isTerminal = true) :
    (applyOp s op).get id = some r := by
  cases op with
  | createRequest wid email dom u =>
    simp only [applyOp]
    split
    · rename_i s2 hc
      rw [get_create_ok hc id (by rw [hget]; rfl)]
      exact hget
    · exact hget
  | startDomainCheck id2 =>
    exact engineApply_get_frozen _ _ hget
      (ne_of_terminal hterm (show Stage.created.isTerminal = false from rfl))
  | domainCheckResult id2 tries =>
    simp only [applyOp]
    split
    · split
      · exact engineApply_get_frozen _ _ hget
          (ne_of_terminal hterm (show Stage.domainChecking.isTerminal = false from rfl))
      · exact hget
    · exact engineApply_get_frozen _ _ hget
        (ne_of_terminal hterm (show Stage.domainChecking.isTerminal = false from rfl))
    · split
      · exact engineApply_get_frozen _ _ hget
          (ne_of_terminal hterm (show Stage.domainChecking.isTerminal = false from rfl))
      · exact hget
  | reissuePaymentLink id2 =>
    simp only [applyOp]
    split
    · split
      · refine get_after_map_skip hget _ ?_ ?_
        · intro q
          dsimp only
          split
          · exact issueLink_id q
          · rfl
        · dsimp only
          rw [if_neg]
          intro hc
          have h2 := ((Bool.and_eq_true _ _).mp hc).2
          exact (ne_of_terminal hterm
            (show Stage.awaitingPayment.isTerminal = false from rfl)) (eq_of_beq h2)
      · exact hget
    · exact hget
  | confirmPayment ref =>
    simp only [applyOp, confirmPaymentSignal]
    split
    · exact hget
    · split
      · exact engineApply_get_frozen _ _ hget
          (ne_of_terminal hterm (show Stage.awaitingPayment.isTerminal = false from rfl))
      · exact hget
  | runStep id2 step attempts =>
    simp only [applyOp]
    split
    · split
      · rename_i s2 hc
        rw [get_set_effects, transition_ok_eq hc]
        exact get_after_map_skip hget _ (updReq_id id2 step.source step.target {})
          (updReq_skip id2 step.target {}
            (ne_of_terminal hterm
              (show step.source.isTerminal = false by cases step <;> rfl)))
      · exact hget
    · split
      · exact engineApply_get_frozen _ _ hget
          (ne_of_terminal hterm
            (show step.source.isTerminal = false by cases step <;> rfl))
      · exact hget

/-- C5: when the domain check reports the preferred domain taken, the
request moves to `DomainUnavailable` carrying the ordered list of suggested
alternatives capped at 5 (equal to the list returned by the check whenever
that has at most 5 entries), the payment reference is untouched (no payment
link is issued), and no later engine operation ever changes the record
again — the path never auto-resumes. -/
theorem c5_domain_unavailable (s : Store) (id : Nat)
    (tries : List DomainCheckTry) (alts : List String) (r : ConciergeRequest)
    (hget : s.get id = some r) (hst : r.stage = Stage.domainChecking)
    (hdec : decideDomain tries = DomainDecision.taken alts) :
    stageOf (applyOp s (EngineOp.domainCheckResult id tries)) id =
      some Stage.domainUnavailable ∧
    altsOf (applyOp s (EngineOp.domainCheckResult id tries)) id =
      some (alts.take 5) ∧
    (alts.take 5).length ≤ 5 ∧
    (alts.length ≤ 5 →
      altsOf (applyOp s (EngineOp.domainCheckResult id tries)) id = some alts) ∧
    refOf (applyOp s (EngineOp.domainCheckResult id tries)) id =
      r.payment_reference ∧
    (∀ op, (applyOp (applyOp s (EngineOp.domainCheckResult id tries)) op).get id =
      (applyOp s (EngineOp.domainCheckResult id tries)).get id) := by
  have happ : applyOp s (EngineOp.domainCheckResult id tries) =
      engineApplyTransition s id Stage.domainChecking Stage.domainUnavailable
        { set_alternatives := some (alts.take 5) } := by
    simp only [applyOp, hdec]
  have hga := get_after_engineApply Stage.domainChecking Stage.domainUnavailable
    { set_alternatives := some (alts.take 5) } hget hst
  rw [happ]
  have hlen : (alts.take 5).length ≤ 5 := by
    rw [List.length_take]
    exact Nat.min_le_left _ _
  refine ⟨?_, ?_, hlen, ?_, ?_, ?_⟩
  · unfold stageOf
    rw [hga]
    rfl
  · unfold altsOf
    rw [hga]
    rfl
  · intro hle
    unfold altsOf
    rw [hga]
    show some (alts.take 5) = some alts
    rw [List.take_of_length_le hle]
  · unfold refOf
    rw [hga]
    rfl
  · intro op
    rw [← happ] at hga ⊢
    rw [hga]
    exact terminal_frozen _ op id _ hga rfl

/-- A concrete request in the domain-checking stage, used by the C5
witness. -/
def wReqChk : ConciergeRequest :=
  { id := 4, website_id := 40, contact_email := "client@example.com",
    preferred_domain := "taken.example", urgency := Urgency.normal,
    price := 49, stage := Stage.domainChecking }

/-- Concrete store holding `wReqChk`. -/
def wStoreChk : Store := { reqs := [wReqChk], effects := [] }

/-- A domain check answering "taken" with three alternatives. -/
def wTries : List DomainCheckTry :=
  [DomainCheckTry.taken ["taken1.example", "taken2.example", "taken3.example"]]

/-- Witness for C5 at a concrete input: Scenario A — the check returns
unavailable with 3 alternatives, the request lands in `DomainUnavailable`
with exactly those 3 alternatives and no payment reference. -/
theorem c5_witness :
    stageOf (applyOp wStoreChk (EngineOp.domainCheckResult 4 wTries)) 4 =
      some Stage.domainUnavailable ∧
    altsOf (applyOp wStoreChk (EngineOp.domainCheckResult 4 wTries)) 4 =
      some ["taken1.example", "taken2.example", "taken3.example"] ∧
    refOf (applyOp wStoreChk (EngineOp.domainCheckResult 4 wTries)) 4 = none :=
  ⟨(c5_domain_unavailable wStoreChk 4 wTries
      ["taken1.example", "taken2.example", "taken3.example"] wReqChk rfl rfl rfl).1,
   (c5_domain_unavailable wStoreChk 4 wTries
      ["taken1.example", "taken2.example", "taken3.example"] wReqChk rfl rfl rfl).2.2.2.1
      (by decide),
   (c5_domain_unavailable wStoreChk 4 wTries
      ["taken1.example", "taken2.example", "taken3.example"] wReqChk rfl rfl rfl).2.2.2.2.1⟩

theorem refOf_some_elim {s : Store} {id : Nat} {p : Nat}
    (h : refOf s id = some p) :
    ∃ r, s.get id = some r ∧ r.payment_reference = some p := by
  unfold refOf at h
  cases hg : s.get id with
  | none => rw [hg] at h; simp at h
  | some r =>
    rw [hg] at h
    exact ⟨r, rfl, h⟩

theorem refOf_of_get {s : Store} {id : Nat} {r : ConciergeRequest}
    (hget : s.get id = some r) : refOf s id = r.payment_reference := by
  unfold refOf
  rw [hget]
  rfl

theorem refOf_map (s : Store) (e2 : List String)
    {g : ConciergeRequest → ConciergeRequest} (hgid : ∀ q, (g q).id = q.id)
    {id : Nat} {r : ConciergeRequest} (hget : s.get id = some r) :
    refOf ⟨s.reqs.map g, e2⟩ id = (g r).payment_reference := by
  unfold refOf
  rw [get_mk_map s.reqs e2 g hgid id]
  rw [show Store.get ⟨s.reqs, e2⟩ id = some r from hget]
  rfl

theorem ref_stable_engineApply {s : Store} (id2 : Nat) (exp new : Stage)
    {fl : TransitionFields} (hfl : fl.set_payment_reference = none)
    {id p : Nat} {r : ConciergeRequest}
    (hget : s.get id = some r) (hr : r.payment_reference = some p) :
    refOf (engineApplyTransition s id2 exp new fl) id = some p := by
  rcases engineApply_eq s id2 exp new fl with he | he
  · rw [he, refOf_of_get hget]
    exact hr
  · rw [he]
    rw [show refOf { s with reqs := s.reqs.map (updReq id2 exp new fl) } id =
        (updReq id2 exp new fl r).payment_reference from
      refOf_map s s.effects (updReq_id id2 exp new fl) hget]
    rw [updReq_ref_of_none id2 exp new hfl]
    exact hr

theorem ref_stable_step (s : Store) (op : EngineOp) (id p : Nat)
    (h : refOf s id = some p) : refOf (applyOp s op) id = some p := by
  obtain ⟨r, hget, hr⟩ := refOf_some_elim h
  cases op with
  | createRequest wid email dom u =>
    simp only [applyOp]
    split
    · rename_i s2 hc
      have hg2 : s2.get id = some r :=
        (get_create_ok hc id (by rw [hget]; rfl)).trans hget
      rw [refOf_of_get hg2]
      exact hr
    · exact h
  | startDomainCheck id2 =>
    exact ref_stable_engineApply id2 Stage.created Stage.domainChecking rfl hget hr
  | domainCheckResult id2 tries =>
    simp only [applyOp]
    split
    · split
      · rename_i r2 hget2
        rcases engineApply_eq s id2 Stage.domainChecking Stage.awaitingPayment
            { set_payment_reference := some (refChoice r2) } with he | he
        · rw [he, refOf_of_get hget]
          exact hr
        · rw [he]
          rw [show refOf { s with reqs := s.reqs.map (updReq id2 Stage.domainChecking
                Stage.awaitingPayment { set_payment_reference := some (refChoice r2) }) } id =
              (updReq id2 Stage.domainChecking Stage.awaitingPayment
                { set_payment_reference := some (refChoice r2) } r).payment_reference from
            refOf_map s s.effects (updReq_id id2 Stage.domainChecking Stage.awaitingPayment
              { set_payment_reference := some (refChoice r2) }) hget]
          by_cases hcond : (r.id == id2 && r.stage == Stage.domainChecking) = true
          · have hid2 : r.id = id2 := eq_of_beq ((Bool.and_eq_true _ _).mp hcond).1
            have hidr : r.id = id := (get_eq_some_id hget).2
            have hid3 : id2 = id := hid2.symm.trans hidr
            rw [hid3] at hget2
            rw [hget] at hget2
            have hr2 : r2 = r := (Option.some.inj hget2).symm
            unfold updReq
            rw [if_pos hcond]
            show (applyFields r { set_payment_reference := some (refChoice r2) }).payment_reference =
              some p
            rw [hr2]
            show some (refChoice r) = some p
            unfold refChoice
            rw [hr]
          · unfold updReq
            rw [if_neg hcond]
            exact hr
      · exact h
    · exact ref_stable_engineApply id2 Stage.domainChecking Stage.domainUnavailable rfl hget hr
    · split
      · exact ref_stable_engineApply id2 Stage.domainChecking Stage.failed rfl hget hr
      · exact h
  | reissuePaymentLink id2 =>
    simp only [applyOp]
    split
    · split
      · have hgid : ∀ q : ConciergeRequest,
            ((if q.id == id2 && q.stage == Stage.awaitingPayment then (issueLink q).1 else q)).id =
              q.id := by
          intro q
          split
          · exact issueLink_id q
          · rfl
        refine (refOf_map s s.effects hgid hget).trans ?_
        dsimp only
        split
        · rw [(issueLink_of_some hr).1]
          exact hr
        · exact hr
      · exact h
    · exact h
  | confirmPayment ref2 =>
    simp only [applyOp, confirmPaymentSignal]
    split
    · exact h
    · split
      · exact ref_stable_engineApply _ Stage.awaitingPayment Stage.provisioning rfl hget hr
      · exact h
  | runStep id2 step attempts =>
    simp only [applyOp]
    split
    · split
      · rename_i s2 hc
        have hs2 := transition_ok_eq hc
        subst hs2
        refine (refOf_map s (s.effects ++ [step.effect])
          (updReq_id id2 step.source step.target {}) hget).trans ?_
        rw [updReq_ref_of_none id2 step.source step.target rfl]
        exact hr
      · exact h
    · split
      · exact ref_stable_engineApply id2 step.source Stage.failed rfl hget hr
      · exact h

theorem create_ok_eq {s : Store} {wid : Nat} {email dom : String} {u : Urgency}
    {s2 : Store} (h : s.create wid email dom u = Except.ok s2) :
    s2 = { s with reqs :=
      { id := freshId s, website_id := wid, contact_email := email,
        preferred_domain := dom, urgency := u, price := totalPriceEuros u,
        stage := Stage.created } :: s.reqs } := by
  unfold Store.create at h
  split at h
  · exact absurd h (by simp)
  · exact (Except.ok.inj h).symm

theorem mem_engineApply {s : Store} {id2 : Nat} {exp new : Stage}
    {fl : TransitionFields} {r2 : ConciergeRequest}
    (h : r2 ∈ (engineApplyTransition s id2 exp new fl).reqs) :
    r2 ∈ s.reqs ∨ ∃ q ∈ s.reqs, q.stage = exp ∧
      r2 = { applyFields q fl with stage := new } := by
  rcases engineApply_eq s id2 exp new fl with he | he
  · rw [he] at h
    exact Or.inl h
  · rw [he] at h
    obtain ⟨q, hq, hgq⟩ := List.mem_map.mp h
    rcases updReq_cases id2 exp new fl q with hc | ⟨hcs, hceq⟩
    · rw [hc] at hgq
      exact Or.inl (hgq ▸ hq)
    · rw [hceq] at hgq
      exact Or.inr ⟨q, hq, hcs, hgq.symm⟩

theorem ref_none_early {s : Store} (hs : Reachable s) :
    ∀ r ∈ s.reqs, (r.stage = Stage.created ∨ r.stage = Stage.domainChecking) →
      r.payment_reference = none := by
  induction hs with
  | init =>
    intro r hr
    cases hr
  | step op hs ih =>
    intro r2 hr2 hst2
    cases op with
    | createRequest wid email dom u =>
      revert hr2
      simp only [applyOp]
      split
      · rename_i s2 hc
        rw [create_ok_eq hc]
        intro hr2
        rcases List.mem_cons.mp hr2 with hh | ht
        · rw [hh]
        · exact ih r2 ht hst2
      · intro hr2
        exact ih r2 hr2 hst2
    | startDomainCheck id2 =>
      simp only [applyOp] at hr2
      rcases mem_engineApply hr2 with hm | ⟨q, hq, hqs, hq2⟩
      · exact ih r2 hm hst2
      · rw [hq2]
        exact ih q hq (Or.inl hqs)
    | domainCheckResult id2 tries =>
      revert hr2
      simp only [applyOp]
      split
      · split
        · intro hr2
          rcases mem_engineApply hr2 with hm | ⟨q, hq, hqs, hq2⟩
          · exact ih r2 hm hst2
          · exfalso
            rw [hq2] at hst2
            rcases hst2 with hc | hc <;> exact Stage.noConfusion hc
        · intro hr2
          exact ih r2 hr2 hst2
      · intro hr2
        rcases mem_engineApply hr2 with hm | ⟨q, hq, hqs, hq2⟩
        · exact ih r2 hm hst2
        · exfalso
          rw [hq2] at hst2
          rcases hst2 with hc | hc <;> exact Stage.noConfusion hc
      · split
        · intro hr2
          rcases mem_engineApply hr2 with hm | ⟨q, hq, hqs, hq2⟩
          · exact ih r2 hm hst2
          · exfalso
            rw [hq2] at hst2
            rcases hst2 with hc | hc <;> exact Stage.noConfusion hc
        · intro hr2
          exact ih r2 hr2 hst2
    | reissuePaymentLink id2 =>
      revert hr2
      simp only [applyOp]
      split
      · split
        · intro hr2
          obtain ⟨q, hq, hgq⟩ := List.mem_map.mp hr2
          by_cases hcond : (q.id == id2 && q.stage == Stage.awaitingPayment) = true
          · rw [if_pos hcond] at hgq
            exfalso
            rw [← hgq] at hst2
            rw [issueLink_stage q] at hst2
            have hqa : q.stage = Stage.awaitingPayment :=
              eq_of_beq ((Bool.and_eq_true _ _).mp hcond).2
            rw [hqa] at hst2
            rcases hst2 with hc | hc <;> exact Stage.noConfusion hc
          · rw [if_neg hcond] at hgq
            subst hgq
            exact ih q hq hst2
        · intro hr2
          exact ih r2 hr2 hst2
      · intro hr2
        exact ih r2 hr2 hst2
    | confirmPayment ref2 =>
      revert hr2
      simp only [applyOp, confirmPaymentSignal]
      split
      · intro hr2
        exact ih r2 hr2 hst2
      · split
        · intro hr2
          rcases mem_engineApply hr2 with hm | ⟨q, hq, hqs, hq2⟩
          · exact ih r2 hm hst2
          · exfalso
            rw [hq2] at hst2
            rcases hst2 with hc | hc <;> exact Stage.noConfusion hc
        · intro hr2
          exact ih r2 hr2 hst2
    | runStep id2 step attempts =>
      revert hr2
      simp only [applyOp]
      split
      · split
        · rename_i s2 hc
          intro hr2
          rw [transition_ok_eq hc] at hr2
          obtain ⟨q, hq, hgq⟩ := List.mem_map.mp hr2
          rcases updReq_cases id2 step.source step.target {} q with hcc | ⟨hcs, hceq⟩
          · rw [hcc] at hgq
            subst hgq
            exact ih q hq hst2
          · rw [hceq] at hgq
            exfalso
            rw [← hgq] at hst2
            rcases hst2 with hcx | hcx <;> (cases step <;> exact Stage.noConfusion hcx)
        · intro hr2
          exact ih r2 hr2 hst2
      · split
        · intro hr2
          rcases mem_engineApply hr2 with hm | ⟨q, hq, hqs, hq2⟩
          · exact ih r2 hm hst2
          · exfalso
            rw [hq2] at hst2
            rcases hst2 with hc | hc <;> exact Stage.noConfusion hc
        · intro hr2
          exact ih r2 hr2 hst2

/-- C2: a request's payment_reference is assigned exactly once, at the
transition into `AwaitingPayment`, and never changes afterwards: (i) every
engine operation preserves an already assigned reference; (ii) the
transition into `AwaitingPayment` persists a reference (reusing any
existing one); (iii) in every reachable store a request that has not yet
reached `AwaitingPayment` (stage `Created` or `DomainChecking`) has no
reference; (iv) re-issuing a payment link for a request whose reference is
set returns the same reference and leaves the record unchanged — a second
reference is never minted. -/
theorem c2_payment_reference_once :
    (∀ (s : Store) (op : EngineOp) (id p : Nat),
      refOf s id = some p → refOf (applyOp s op) id = some p) ∧
    (∀ (s : Store) (id : Nat) (tries : List DomainCheckTry)
      (r : ConciergeRequest),
      s.get id = some r → r.stage = Stage.domainChecking →
      decideDomain tries = DomainDecision.available →
      refOf (applyOp s (EngineOp.domainCheckResult id tries)) id =
        some (refChoice r)) ∧
    (∀ s : Store, Reachable s → ∀ r ∈ s.reqs,
      (r.stage = Stage.created ∨ r.stage = Stage.domainChecking) →
      r.payment_reference = none) ∧
    (∀ (q : ConciergeRequest) (p : Nat), q.payment_reference = some p →
      (issueLink q).1 = q ∧ (issueLink q).2.1 = p) := by
  refine ⟨ref_stable_step, ?_, fun s hs => ref_none_early hs,
    fun q p h => issueLink_of_some h⟩
  intro s id tries r hget hst hdec
  simp only [applyOp, hdec, hget]
  have hga := get_after_engineApply Stage.domainChecking Stage.awaitingPayment
    { set_payment_reference := some (refChoice r) } hget hst
  unfold refOf
  rw [hga]
  rfl

/-- Store obtained by creating one request in the empty store, used by the
C2 witness. -/
def wStoreNew : Store :=
  applyOp { reqs := [], effects := [] }
    (EngineOp.createRequest 10 "client@example.com" "site.example" Urgency.normal)

/-- The record `wStoreNew` holds. -/
def wReqNew : ConciergeRequest :=
  { id := 0, website_id := 10, contact_email := "client@example.com",
    preferred_domain := "site.example", urgency := Urgency.normal,
    price := 49, stage := Stage.created }

/-- Witness for C2 at concrete inputs: a reissue preserves the assigned
reference 2049; an available domain check persists `refChoice`; a freshly
created request has no reference; re-issuing on a set reference returns it
unchanged. -/
theorem c2_witness :
    refOf (applyOp wStorePay (EngineOp.reissuePaymentLink 2)) 2 = some 2049 ∧
    refOf (applyOp wStoreChk
      (EngineOp.domainCheckResult 4 [DomainCheckTry.available])) 4 =
      some (refChoice wReqChk) ∧
    wReqNew.payment_reference = none ∧
    (issueLink wReqPay).1 = wReqPay ∧ (issueLink wReqPay).2.1 = 2049 :=
  ⟨c2_payment_reference_once.1 wStorePay (EngineOp.reissuePaymentLink 2) 2 2049 rfl,
   c2_payment_reference_once.2.1 wStoreChk 4 [DomainCheckTry.available] wReqChk rfl rfl rfl,
   c2_payment_reference_once.2.2.1 wStoreNew
     (Reachable.step
       (EngineOp.createRequest 10 "client@example.com" "site.example" Urgency.normal)
       Reachable.init)
     wReqNew (by decide) (Or.inl rfl),
   (c2_payment_reference_once.2.2.2 wReqPay 2049 rfl).1,
   (c2_payment_reference_once.2.2.2 wReqPay 2049 rfl).2⟩

/-- At most one non-terminal request per website_id, stated pairwise. -/
def OutstandingOK (l : List ConciergeRequest) : Prop :=
  l.Pairwise (fun a b => ¬(a.website_id = b.website_id ∧
    a.stage.isTerminal = false ∧ b.stage.isTerminal = false))

theorem outstanding_map_updReq {l : List ConciergeRequest} (id2 : Nat)
    {exp : Stage} (new : Stage) (fl : TransitionFields)
    (hexp : exp.isTerminal = false) (h : OutstandingOK l) :
    OutstandingOK (l.map (updReq id2 exp new fl)) := by
  refine h.map _ ?_
  intro a b hab hcon
  apply hab
  obtain ⟨h1, h2, h3⟩ := hcon
  refine ⟨?_, ?_, ?_⟩
  · rw [← updReq_website_id id2 exp new fl a, ← updReq_website_id id2 exp new fl b]
    exact h1
  · rcases updReq_cases id2 exp new fl a with hc | ⟨hcs, _⟩
    · rw [← hc]
      exact h2
    · rw [hcs]
      exact hexp
  · rcases updReq_cases id2 exp new fl b with hc | ⟨hcs, _⟩
    · rw [← hc]
      exact h3
    · rw [hcs]
      exact hexp

theorem outstanding_map_pres {l : List ConciergeRequest}
    {g : ConciergeRequest → ConciergeRequest}
    (hw : ∀ q, (g q).website_id = q.website_id)
    (hst : ∀ q, (g q).stage = q.stage) (h : OutstandingOK l) :
    OutstandingOK (l.map g) := by
  refine h.map _ ?_
  intro a b hab hcon
  apply hab
  obtain ⟨h1, h2, h3⟩ := hcon
  rw [hw, hw] at h1
  rw [hst] at h2 h3
  exact ⟨h1, h2, h3⟩

theorem hasOutstanding_false_elim {s : Store} {wid : Nat}
    (h : hasOutstanding s wid = false) :
    ∀ b ∈ s.reqs, ¬(b.website_id = wid ∧ b.stage.isTerminal = false) := by
  intro b hb hcon
  obtain ⟨h1, h2⟩ := hcon
  have hpb : (b.website_id == wid && !b.stage.isTerminal) = true := by
    rw [Bool.and_eq_true]
    exact ⟨beq_iff_eq.mpr h1, by rw [h2]; rfl⟩
  have h3 : s.reqs.any (fun r => r.website_id == wid && !r.stage.isTerminal) = true :=
    List.any_eq_true.mpr ⟨b, hb, hpb⟩
  unfold hasOutstanding at h
  rw [h] at h3
  exact Bool.noConfusion h3

theorem outstanding_step {s : Store} (op : EngineOp)
    (h : OutstandingOK s.reqs) : OutstandingOK (applyOp s op).reqs := by
  cases op with
  | createRequest wid email dom u =>
    simp only [applyOp]
    split
    · rename_i s2 hc
      rw [create_ok_eq hc]
      refine List.Pairwise.cons ?_ h
      intro b hb hcon
      obtain ⟨h1, _, h3⟩ := hcon
      have hdup : hasOutstanding s wid = false := by
        unfold Store.create at hc
        split at hc
        · exact absurd hc (by simp)
        · rename_i hd
          exact Bool.not_eq_true _ ▸ eq_false_of_ne_true hd
      exact hasOutstanding_false_elim hdup b hb ⟨h1.symm, h3⟩
    · exact h
  | startDomainCheck id2 =>
    rcases engineApply_eq s id2 Stage.created Stage.domainChecking {} with he | he
    · rw [show applyOp s (EngineOp.startDomainCheck id2) =
          engineApplyTransition s id2 Stage.created Stage.domainChecking {} from rfl, he]
      exact h
    · rw [show applyOp s (EngineOp.startDomainCheck id2) =
          engineApplyTransition s id2 Stage.created Stage.domainChecking {} from rfl, he]
      exact outstanding_map_updReq id2 Stage.domainChecking {} rfl h
  | domainCheckResult id2 tries =>
    simp only [applyOp]
    split
    · split
      · rename_i r2 hget2
        rcases engineApply_eq s id2 Stage.domainChecking Stage.awaitingPayment
            { set_payment_reference := some (refChoice r2) } with he | he
        · rw [he]; exact h
        · rw [he]
          exact outstanding_map_updReq id2 Stage.awaitingPayment _ rfl h
      · exact h
    · rcases engineApply_eq s id2 Stage.domainChecking Stage.domainUnavailable
          { set_alternatives := some _ } with he | he
      · rw [he]; exact h
      · rw [he]
        exact outstanding_map_updReq id2 Stage.domainUnavailable _ rfl h
    · split
      · rcases engineApply_eq s id2 Stage.domainChecking Stage.failed
            { set_failure_reason := some _ } with he | he
        · rw [he]; exact h
        · rw [he]
          exact outstanding_map_updReq id2 Stage.failed _ rfl h
      · exact h
  | reissuePaymentLink id2 =>
    simp only [applyOp]
    split
    · split
      · refine outstanding_map_pres ?_ ?_ h
        · intro q
          dsimp only
          split
          · show (issueLink q).1.website_id = q.website_id
            unfold issueLink
            cases q.payment_reference <;> rfl
          · rfl
        · intro q
          dsimp only
          split
          · exact issueLink_stage q
          · rfl
      · exact h
    · exact h
  | confirmPayment ref2 =>
    simp only [applyOp, confirmPaymentSignal]
    split
    · exact h
    · split
      · rename_i r2 hfind2 hst2
        rcases engineApply_eq s r2.id Stage.awaitingPayment Stage.provisioning {} with he | he
        · rw [he]; exact h
        · rw [he]
          exact outstanding_map_updReq r2.id Stage.provisioning {} rfl h
      · exact h
  | runStep id2 step attempts =>
    simp only [applyOp]
    split
    · split
      · rename_i s2 hc
        rw [transition_ok_eq hc]
        show OutstandingOK (s.reqs.map (updReq id2 step.source step.target {}))
        exact outstanding_map_updReq id2 step.target {} (by cases step <;> rfl) h
      · exact h
    · split
      · rcases engineApply_eq s id2 step.source Stage.failed
            { set_failure_reason := some _ } with he | he
        · rw [he]; exact h
        · rw [he]
          exact outstanding_map_updReq id2 Stage.failed _ (by cases step <;> rfl) h
      · exact h

theorem reachable_outstanding {s : Store} (hs : Reachable s) :
    OutstandingOK s.reqs := by
  induction hs with
  | init => exact List.Pairwise.nil
  | step op hs ih => exact outstanding_step op ih

theorem count_le_one {l : List ConciergeRequest} (h : OutstandingOK l)
    (wid : Nat) :
    (l.filter (fun r => r.website_id == wid && !r.stage.isTerminal)).length ≤ 1 := by
  have hf := h.filter (fun r => r.website_id == wid && !r.stage.isTerminal)
  cases hfl : l.filter (fun r => r.website_id == wid && !r.stage.isTerminal) with
  | nil => simp
  | cons a t =>
    cases t with
    | nil => simp
    | cons b t2 =>
      exfalso
      rw [hfl] at hf
      have hab := (List.pairwise_cons.mp hf).1 b (by simp)
      have ha : a ∈ l.filter (fun r => r.website_id == wid && !r.stage.isTerminal) := by
        rw [hfl]
        simp
      have hb : b ∈ l.filter (fun r => r.website_id == wid && !r.stage.isTerminal) := by
        rw [hfl]
        simp
      have hpa := (List.mem_filter.mp ha).2
      have hpb := (List.mem_filter.mp hb).2
      obtain ⟨ha1, ha2⟩ := Bool.and_eq_true _ _ |>.mp hpa
      obtain ⟨hb1, hb2⟩ := Bool.and_eq_true _ _ |>.mp hpb
      apply hab
      refine ⟨(eq_of_beq ha1).trans (eq_of_beq hb1).symm, ?_, ?_⟩
      · rw [← Bool.not_eq_true']
        exact ha2
      · rw [← Bool.not_eq_true']
        exact hb2

/-- C4: in every reachable store, `create` fails with `DuplicateRequest`
exactly when the given website_id already has a non-terminal request
outstanding, and consequently at most one non-terminal request exists per
website_id. -/
theorem c4_duplicate_request (s : Store) (hs : Reachable s) :
    (∀ (wid : Nat) (email dom : String) (u : Urgency),
      s.create wid email dom u = Except.error StoreError.duplicateRequest ↔
        ∃ r ∈ s.reqs, r.website_id = wid ∧ r.stage.isTerminal = false) ∧
    (∀ wid : Nat, (s.reqs.filter
      (fun r => r.website_id == wid && !r.stage.isTerminal)).length ≤ 1) := by
  constructor
  · intro wid email dom u
    unfold Store.create
    constructor
    · intro h
      by_cases hd : hasOutstanding s wid = true
      · obtain ⟨r, hr, hp⟩ := List.any_eq_true.mp hd
        obtain ⟨h1, h2⟩ := (Bool.and_eq_true _ _).mp hp
        refine ⟨r, hr, eq_of_beq h1, ?_⟩
        rw [← Bool.not_eq_true']
        exact h2
      · rw [if_neg hd] at h
        exact absurd h (by simp)
    · intro hex
      obtain ⟨r, hr, h1, h2⟩ := hex
      have hd : hasOutstanding s wid = true := by
        refine List.any_eq_true.mpr ⟨r, hr, ?_⟩
        rw [Bool.and_eq_true]
        exact ⟨beq_iff_eq.mpr h1, by rw [h2]; rfl⟩
      rw [if_pos hd]
  · intro wid
    exact count_le_one (reachable_outstanding hs) wid

/-- Witness for C4 at a concrete input: in the reachable store holding one
freshly created request for website 10, a second create for website 10
fails with DuplicateRequest and the outstanding count is at most 1. -/
theorem c4_witness :
    (wStoreNew.create 10 "other@example.com" "other.example" Urgency.urgent =
      Except.error StoreError.duplicateRequest ↔
      ∃ r ∈ wStoreNew.reqs, r.website_id = 10 ∧ r.stage.isTerminal = false) ∧
    (wStoreNew.reqs.filter
      (fun r => r.website_id == 10 && !r.stage.isTerminal)).length ≤ 1 :=
  ⟨(c4_duplicate_request wStoreNew
      (Reachable.step
        (EngineOp.createRequest 10 "client@example.com" "site.example" Urgency.normal)
        Reachable.init)).1 10 "other@example.com" "other.example" Urgency.urgent,
   (c4_duplicate_request wStoreNew
      (Reachable.step
        (EngineOp.createRequest 10 "client@example.com" "site.example" Urgency.normal)
        Reachable.init)).2 10⟩

end IAWebgen.Backend
